import Mathlib

/-!
Verification of the `closest` k-d tree library (Rust) against its
natural-language specification.

The development shallowly embeds the source files `src/tree.rs`,
`src/distance.rs` and `src/error.rs`.  Conventions of the embedding:

* `f32` values are modelled by `F32`: either a finite rational number or a
  single `nan` value.  The model ignores signed zero, infinities and NaN
  payload/sign bits; `totalCmpF` places `nan` greatest, which matches
  `f32::total_cmp` for the positive quiet NaN produced by arithmetic.
* Fallible code is modelled in `Option`: `none` models a Rust panic
  (out-of-bounds index, `%` by zero).  `Except ClosestError` models the
  `Result` return type of the Rust functions that have one.
* `std::collections::BinaryHeap` is modelled on the underlying vector
  (`List RawNeighbor`) with `push`/`sift_up`, `pop`/`sift_down_to_bottom`,
  `peek` translated from the Rust standard library; `into_iter` yields the
  underlying vector order, exactly as in Rust.  `extend` is modelled as
  repeated `push`; the standard library may instead rebuild the heap, which
  yields the same element multiset (theorems below never depend on the
  internal layout after an `extend`).
* Rust's stable `sort_by` is modelled by a stable insertion sort with the
  same comparator; for a comparator that is a total preorder the output of
  any stable sort is unique, so this agrees with Rust.  (The NaN comparator
  in `build_tree` is not consistent; no theorem below depends on the
  resulting order in that case, only on success and on the length.)
  `sort_unstable_by` is modelled by the same sort; theorems that involve it
  only depend on facts that are invariant under permuting tied elements.
* Loops and recursions whose termination is by a non-structural measure
  (heap sifting, tree building) are written with an explicit fuel parameter
  so that every definition evaluates by kernel reduction; the fuel chosen
  at each call site strictly dominates the measure, so the fuel-exhausted
  branch is unreachable (the build lemmas below do not assume otherwise:
  they hypothesise a `some` result, or carry the length bound explicitly).
-/

/-- Model of `f32`: a finite rational value or NaN. -/
inductive F32 where
  | nan : F32
  | val : ℚ → F32
deriving DecidableEq, Repr

/-- Rational addition, written through the normalization smart constructor
`mkRat` so that it evaluates by kernel reduction (the library's `Rat.add`
is deliberately irreducible). -/
def qadd (a b : ℚ) : ℚ :=
  mkRat (a.num * b.den + b.num * a.den) (a.den * b.den)

/-- Rational subtraction via `mkRat`; see `qadd`. -/
def qsub (a b : ℚ) : ℚ :=
  mkRat (a.num * b.den - b.num * a.den) (a.den * b.den)

/-- Rational multiplication via `mkRat`; see `qadd`. -/
def qmul (a b : ℚ) : ℚ :=
  mkRat (a.num * b.num) (a.den * b.den)

/-- Explicit three-way comparison on ℚ through the executable strict-order
test `Rat.blt`, used to model float comparisons. -/
def qcmp (a b : ℚ) : Ordering :=
  if Rat.blt a b then Ordering.lt else if Rat.blt b a then Ordering.gt else Ordering.eq

/-- Model of `f32::partial_cmp`: `None` whenever either side is NaN. -/
def partialCmpF : F32 → F32 → Option Ordering
  | F32.val a, F32.val b => some (qcmp a b)
  | _, _ => none

/-- Model of `f32::total_cmp` restricted to finite values and positive NaN. -/
def totalCmpF : F32 → F32 → Ordering
  | F32.val a, F32.val b => qcmp a b
  | F32.nan, F32.nan => Ordering.eq
  | F32.nan, F32.val _ => Ordering.gt
  | F32.val _, F32.nan => Ordering.lt

/-- Model of `f32` `<` : `false` whenever either side is NaN. -/
def ltF : F32 → F32 → Bool
  | F32.val a, F32.val b => Rat.blt a b
  | _, _ => false

/-- Model of `f32` `<=` : `false` whenever either side is NaN. -/
def leF : F32 → F32 → Bool
  | F32.val a, F32.val b => !Rat.blt b a
  | _, _ => false

/-- Model of `f32` subtraction; NaN propagates. -/
def subF : F32 → F32 → F32
  | F32.val a, F32.val b => F32.val (qsub a b)
  | _, _ => F32.nan

/-- Model of `f32` addition; NaN propagates. -/
def addF : F32 → F32 → F32
  | F32.val a, F32.val b => F32.val (qadd a b)
  | _, _ => F32.nan

/-- Model of `.powi(2)`; NaN propagates. -/
def sqF : F32 → F32
  | F32.val a => F32.val (qmul a a)
  | F32.nan => F32.nan

/-- The comparator body of `build_tree`'s `sort_by` closure
(src/tree.rs lines 150-155, after both coordinates have been fetched):
`a_.partial_cmp(&b_).unwrap_or(std::cmp::Ordering::Less)`. -/
def pcmpUnwrapLess (x y : F32) : Ordering :=
  (partialCmpF x y).getD Ordering.lt

/-- A record: arbitrary payload plus a point (src/tree.rs `Data<T>`).
The `Point` struct is a newtype over `Vec<f32>` and is modelled directly as
`List F32`. -/
structure Data (T : Type) where
  data : T
  point : List F32
deriving DecidableEq, Repr

/-- Model of `SquaredEuclideanDistance::distance` (src/distance.rs):
`zip` truncates to the shorter vector, then sum of squared differences,
folded from `0.0` as Rust's `Iterator::sum` does. -/
def sqeuclid (p1 p2 : List F32) : F32 :=
  ((p1.zip p2).map (fun ab => sqF (subF ab.1 ab.2))).foldl addF (F32.val 0)

/-- Transient query candidate (src/tree.rs `RawNeighbor`). -/
structure RawNeighbor where
  distance : F32
  data_pointer : Nat
deriving DecidableEq, Repr

/-- `Ord for RawNeighbor` (src/tree.rs lines 110-114): total_cmp on the
distance. -/
def cmpRaw (a b : RawNeighbor) : Ordering :=
  totalCmpF a.distance b.distance

/-- Result type returned to callers (src/tree.rs `Neighbor<T>`). -/
structure Neighbor (T : Type) where
  distance : F32
  data : T
deriving DecidableEq, Repr

/-- The error enum of src/error.rs (lines 3-11).  `tree.rs` refers to it
under the name `NearestError`; the enum itself (the only one in the
repository) is `ClosestError` with exactly these three variants. -/
inductive ClosestError where
  | DifferingPositionLength : ClosestError
  | UnableToBuildTree : ClosestError
  | RootNodeIsData : ClosestError
deriving DecidableEq, Repr

/-- Tree node (src/tree.rs `NodeOrDataPointer`); the `Node` struct's three
fields are inlined into the `node` constructor. The `data` constructor
carries the `(start, stop)` pair of a leaf range. -/
inductive NodeOrDataPointer where
  | node : Nat → NodeOrDataPointer → NodeOrDataPointer → NodeOrDataPointer
  | data : Nat × Nat → NodeOrDataPointer
deriving DecidableEq, Repr

/-- The k-d tree (src/tree.rs `KDTree<T>`). -/
structure KDTree (T : Type) where
  root_node : NodeOrDataPointer
  data : List (Data T)
  dimension : Nat
deriving DecidableEq, Repr

/-! ## Model of `std::collections::BinaryHeap` on the underlying vector -/

/-- Swap two in-bounds positions of a list (identity when out of bounds;
all uses are in bounds). -/
def lswap (l : List α) (i j : Nat) : List α :=
  match l.get? i, l.get? j with
  | some x, some y => (l.set i y).set j x
  | _, _ => l

/-- `hole.get(i) <= hole.get(j)` on a `RawNeighbor` vector, via the derived
`Ord` (`le` means the comparison is not `Greater`). -/
def lleB (l : List RawNeighbor) (i j : Nat) : Bool :=
  match l.get? i, l.get? j with
  | some a, some b => decide (cmpRaw a b ≠ Ordering.gt)
  | _, _ => false

/-- One fuelled pass of `BinaryHeap::sift_up` (Rust std): move the element
at `pos` up while it is greater than its parent, stopping at `start`.  The
hole position `(pos-1)/2` strictly decreases, so fuel `pos + 1` at the call
site makes the fuel-exhausted branch unreachable. -/
def siftUpGo (l : List RawNeighbor) (start : Nat) : Nat → Nat → List RawNeighbor
  | _, 0 => l
  | 0, _ => l
  | fuel + 1, p + 1 =>
    if p + 1 ≤ start then l
    else
      match l.get? (p + 1), l.get? (p / 2) with
      | some e, some pe =>
        if cmpRaw e pe = Ordering.gt then
          siftUpGo (lswap l (p + 1) (p / 2)) start fuel (p / 2)
        else l
      | _, _ => l

/-- `BinaryHeap::sift_up`. -/
def siftUp (l : List RawNeighbor) (start pos : Nat) : List RawNeighbor :=
  siftUpGo l start (pos + 1) pos

/-- `BinaryHeap::push`: append, then sift up from the former length. -/
def heapPush (l : List RawNeighbor) (x : RawNeighbor) : List RawNeighbor :=
  siftUp (l ++ [x]) 0 l.length

/-- The fuelled descent loop of `BinaryHeap::sift_down_to_bottom` (Rust
std): move the hole to the bottom, always following the greater child (the
right child on ties), returning the final vector and hole position.  The
hole position strictly increases and stays below the length, so fuel
`l.length` at the call site makes the fuel-exhausted branch unreachable. -/
def siftDownLoop : Nat → List RawNeighbor → Nat → List RawNeighbor × Nat
  | 0, l, pos => (l, pos)
  | fuel + 1, l, pos =>
    let child := 2 * pos + 1
    if child + 2 ≤ l.length then
      let child2 := if lleB l child (child + 1) then child + 1 else child
      siftDownLoop fuel (lswap l pos child2) child2
    else if child + 1 = l.length then (lswap l pos child, child)
    else (l, pos)

/-- `BinaryHeap::sift_down_to_bottom`: descend to the bottom, then sift the
moved element back up (not past the original position). -/
def siftDownToBottom (l : List RawNeighbor) (pos : Nat) : List RawNeighbor :=
  let lp := siftDownLoop l.length l pos
  siftUp lp.1 pos lp.2

/-- `BinaryHeap::peek`: the root of the heap, i.e. element 0 of the vector. -/
def heapPeek (l : List RawNeighbor) : Option RawNeighbor :=
  l.get? 0

/-- `BinaryHeap::pop`: remove the last element, place it at the root, sift
down; returns the old root (the maximum) and the new heap. -/
def heapPop (l : List RawNeighbor) : Option (RawNeighbor × List RawNeighbor) :=
  match l with
  | [] => none
  | [x] => some (x, [])
  | top :: rest =>
    match rest.getLast? with
    | some last => some (top, siftDownToBottom (last :: rest.dropLast) 0)
    | none => none

/-- `heap.pop()` used for its side effect only (src/tree.rs line 235). -/
def heapPopDiscard (l : List RawNeighbor) : List RawNeighbor :=
  match heapPop l with
  | some pr => pr.2
  | none => l

/-- `BinaryHeap::extend`, modelled as repeated push (see file comment). -/
def heapExtend (l : List RawNeighbor) (xs : List RawNeighbor) : List RawNeighbor :=
  xs.foldl heapPush l

/-! ## Sorting -/

/-- Stable insert for a total `Ordering`-valued comparator: `x` is placed
before the first element `y` with `c x y ≠ gt`. -/
def insertCmp (c : α → α → Ordering) (x : α) : List α → List α
  | [] => [x]
  | y :: ys =>
    match c x y with
    | Ordering.gt => y :: insertCmp c x ys
    | _ => x :: y :: ys

/-- Stable insertion sort for a total comparator; models Rust's
`sort_by`/`sort_unstable_by` (see file comment about tie order). -/
def sortByCmp (c : α → α → Ordering) : List α → List α
  | [] => []
  | x :: xs => insertCmp c x (sortByCmp c xs)

/-- Stable insert in the `Option` monad: the comparator may panic
(return `none`). -/
def insertM (c : α → α → Option Ordering) (x : α) : List α → Option (List α)
  | [] => some [x]
  | y :: ys =>
    match c x y with
    | none => none
    | some Ordering.gt =>
      match insertM c x ys with
      | none => none
      | some t => some (y :: t)
    | some _ => some (x :: y :: ys)

/-- Stable insertion sort in the `Option` monad; models `sort_by` with the
panicking coordinate-fetch comparator of `build_tree`. -/
def sortM (c : α → α → Option Ordering) : List α → Option (List α)
  | [] => some []
  | x :: xs =>
    match sortM c xs with
    | none => none
    | some s => insertM c x s

theorem insertM_length (c : α → α → Option Ordering) (x : α) :
    ∀ (l l2 : List α), insertM c x l = some l2 → l2.length = l.length + 1 := by
  intro l
  induction l with
  | nil => intro l2 h; simp [insertM] at h; simp [← h]
  | cons y ys ih =>
    intro l2 h
    unfold insertM at h
    match hc : c x y with
    | none => rw [hc] at h; exact absurd h (by simp)
    | some Ordering.gt =>
      rw [hc] at h
      match ht : insertM c x ys with
      | none => rw [ht] at h; exact absurd h (by simp)
      | some t =>
        rw [ht] at h
        simp at h
        simp [← h, ih t ht]
    | some Ordering.lt => rw [hc] at h; simp at h; simp [← h]
    | some Ordering.eq => rw [hc] at h; simp at h; simp [← h]

theorem sortM_length (c : α → α → Option Ordering) :
    ∀ (l l2 : List α), sortM c l = some l2 → l2.length = l.length := by
  intro l
  induction l with
  | nil => intro l2 h; simp [sortM] at h; simp [← h]
  | cons x xs ih =>
    intro l2 h
    unfold sortM at h
    match hs : sortM c xs with
    | none => rw [hs] at h; exact absurd h (by simp)
    | some s =>
      rw [hs] at h
      have := insertM_length c x s l2 h
      rw [this, ih s hs]
      simp

/-! ## Construction (src/tree.rs lines 138-192) -/

/-- The `sort_by` comparator of `build_tree` (src/tree.rs lines 150-155):
fetch the `axis` coordinate of both records (`Point::point` indexes the
vector and panics when out of bounds, modelled by `none`), then compare
with `partial_cmp(..).unwrap_or(Less)`. -/
def cmpAxis (axis : Nat) (a b : Data T) : Option Ordering :=
  match a.point.get? axis, b.point.get? axis with
  | some x, some y => some (pcmpUnwrapLess x y)
  | _, _ => none

/-- Fuelled model of `build_tree` (src/tree.rs lines 138-175).  Takes the
sub-range it operates on as a list, and returns the node plus the reordered
sub-range (the Rust function sorts the slice in place).  `none` models a
panic: either `depth % point_len` with `point_len = 0`, or a record missing
the split-axis coordinate inside the sort comparator.  The pivot is
`sorted[median]`, the left child covers `sorted[..median]`, the right child
`sorted[median+1..]`.  Each recursive call operates on a strictly shorter
sub-range, so fuel `data.length` at the call site (see `build_tree`) makes
the fuel-exhausted branch unreachable. -/
def build_tree_go : Nat → List (Data T) → Nat → Nat → Nat → Nat →
    Option (NodeOrDataPointer × List (Data T))
  | 0, data, data_location, _, _, min_points =>
    if data.length < min_points ∨ data.length < 3 then
      some (NodeOrDataPointer.data (data_location, data_location + data.length), data)
    else none
  | fuel + 1, data, data_location, depth, point_len, min_points =>
    if data.length < min_points ∨ data.length < 3 then
      some (NodeOrDataPointer.data (data_location, data_location + data.length), data)
    else if point_len = 0 then none
    else
      match sortM (cmpAxis (depth % point_len)) data with
      | none => none
      | some sorted =>
        match sorted.drop (data.length / 2) with
        | [] => none
        | pivot :: rest =>
          match build_tree_go fuel (sorted.take (data.length / 2)) data_location
              (depth + 1) point_len min_points with
          | none => none
          | some lpair =>
            match build_tree_go fuel rest (data_location + data.length / 2 + 1)
                (depth + 1) point_len min_points with
            | none => none
            | some rpair =>
              some (NodeOrDataPointer.node (data.length / 2 + data_location)
                  lpair.1 rpair.1,
                lpair.2 ++ pivot :: rpair.2)

/-- Model of `build_tree` (src/tree.rs lines 138-175); the fuel
`data.length` strictly dominates the recursion depth. -/
def build_tree (data : List (Data T)) (data_location depth point_len min_points : Nat) :
    Option (NodeOrDataPointer × List (Data T)) :=
  build_tree_go data.length data data_location depth point_len min_points

/-- Model of `KDTree::from_vec` (src/tree.rs lines 184-192).  The Rust
function returns `Result` but has no error path; indexing `data[0]` on an
empty vector panics (`none`).  `point_len` is the dimension of the first
record. -/
def from_vec (data : List (Data T)) (min_points : Nat) :
    Option (Except ClosestError (KDTree T)) :=
  match data with
  | [] => none
  | d0 :: _ =>
    match build_tree data 0 0 d0.point.length min_points with
    | none => none
    | some pair => some (Except.ok ⟨pair.1, pair.2, d0.point.length⟩)

/-- Model of `KDTree::from_iter` (src/tree.rs lines 178-183): collect the
iterator and call `from_vec`. -/
def from_iter (data : List (Data T)) (min_points : Nat) :
    Option (Except ClosestError (KDTree T)) :=
  from_vec data min_points

/-- Model of `KDTree::get_root_node` (src/tree.rs lines 193-198): the inner
`Node` (as its three fields) when the root is a node, otherwise the
`RootNodeIsData` error. -/
def get_root_node (t : KDTree T) :
    Except ClosestError (Nat × NodeOrDataPointer × NodeOrDataPointer) :=
  match t.root_node with
  | NodeOrDataPointer.node dp l r => Except.ok (dp, l, r)
  | NodeOrDataPointer.data _ => Except.error ClosestError.RootNodeIsData

/-! ## Query (src/tree.rs lines 205-293) -/

/-- The internal-node heap insertion (src/tree.rs lines 230-240): push when
the heap is empty; otherwise push only when the distance is strictly less
than the current worst, popping the worst first when the heap already holds
at least `k` entries. -/
def insertPivot (k : Nat) (heap : List RawNeighbor) (cand : RawNeighbor) :
    List RawNeighbor :=
  match heapPeek heap with
  | none => heapPush heap cand
  | some worst =>
    if ltF cand.distance worst.distance then
      heapPush (if k ≤ heap.length then heapPopDiscard heap else heap) cand
    else heap

/-- The far-child descent guard (src/tree.rs lines 250-254): descend only
when the heap is non-empty and `diff^2` is strictly less than the current
worst distance. -/
def descendAway (heap : List RawNeighbor) (diffSq : F32) : Bool :=
  match heapPeek heap with
  | some worst => ltF diffSq worst.distance
  | none => false

/-- The leaf merge loop (src/tree.rs lines 271-289).  The Rust code sorts
the candidates in reverse (descending) order and pops them off the back of
the vector, i.e. consumes them in ascending order; this function takes that
ascending sequence (the reverse of the sorted vector, see the call site)
and scans it front to back: push while the heap is below `k`, then replace
the worst while the candidate is strictly better, else stop.  When the heap
has no worst element and is full (`k = 0`), the candidate is skipped and
the scan continues, exactly as the `if let` without `else` does. -/
def leafLoop (k : Nat) (heap : List RawNeighbor) : List RawNeighbor → List RawNeighbor
  | [] => heap
  | best :: restc =>
    if heap.length < k then leafLoop k (heapPush heap best) restc
    else
      match heapPeek heap with
      | some worst =>
        if cmpRaw worst best = Ordering.gt then
          leafLoop k (heapPush (heapPopDiscard heap) best) restc
        else heap
      | none => leafLoop k heap restc

/-- Model of `KDTree::nearest_neighbors` (src/tree.rs lines 217-293),
recursing over the node.  `none` models a panic: a data index outside the
backing storage, `depth % dimension` with dimension 0, or a coordinate
index outside the query point or the pivot point.  The Rust code binds
`(close, away)` from the sign test on `diff` and recurses on `close`, then
conditionally on `away`; here the two branches of the sign test are written
out so that the recursion is structural. -/
def nearest_neighbors (t : KDTree T) (point : List F32) (k : Nat) :
    NodeOrDataPointer → Nat → List RawNeighbor → Option (List RawNeighbor)
  | NodeOrDataPointer.node dp l r, depth, heap =>
    match t.data.get? dp with
    | none => none
    | some pd =>
      let distance := sqeuclid point pd.point
      let heap1 := insertPivot k heap ⟨distance, dp⟩
      if t.dimension = 0 then none
      else
        let axis := depth % t.dimension
        match point.get? axis, pd.point.get? axis with
        | some pc, some vc =>
          let diff := subF pc vc
          if leF diff (F32.val 0) then
            match nearest_neighbors t point k l (depth + 1) heap1 with
            | none => none
            | some heap2 =>
              if descendAway heap2 (sqF diff) then
                nearest_neighbors t point k r (depth + 1) heap2
              else some heap2
          else
            match nearest_neighbors t point k r (depth + 1) heap1 with
            | none => none
            | some heap2 =>
              if descendAway heap2 (sqF diff) then
                nearest_neighbors t point k l (depth + 1) heap2
              else some heap2
        | _, _ => none
  | NodeOrDataPointer.data se, _, heap =>
    match (List.range' se.1 (se.2 - se.1)).mapM (fun dp =>
        match t.data.get? dp with
        | none => none
        | some d => some (⟨sqeuclid point d.point, dp⟩ : RawNeighbor)) with
    | none => none
    | some cands =>
      if cands.length ≤ k - heap.length then some (heapExtend heap cands)
      else some (leafLoop k heap ((sortByCmp (fun a b => cmpRaw b a) cands).reverse))

/-- Model of `KDTree::get_nearest_neighbors` (src/tree.rs lines 205-216):
run the traversal from the root with an empty heap, then map the heap's
underlying vector, in its internal order, to `Neighbor` values
(`RawNeighbor::as_neighbor` indexes the backing storage; `none` models the
panic when an index is out of bounds). -/
def get_nearest_neighbors (t : KDTree T) (point : List F32) (k : Nat) :
    Option (List (Neighbor T)) :=
  match nearest_neighbors t point k t.root_node 0 [] with
  | none => none
  | some heap =>
    heap.mapM (fun r =>
      match t.data.get? r.data_pointer with
      | none => none
      | some d => some (⟨r.distance, d.data⟩ : Neighbor T))

/-- Composition of construction and query, used to state concrete
end-to-end facts: build with `from_vec`, then query.  `none` when either
step panics (`from_vec` surfaces no error value, see `from_vec`). -/
def runQuery (data : List (Data T)) (min_points : Nat) (point : List F32) (k : Nat) :
    Option (List (Neighbor T)) :=
  match from_vec data min_points with
  | some (Except.ok t) => get_nearest_neighbors t point k
  | _ => none

/-! ## Structural functions used to state the invariants -/

/-- All backing-storage indices referenced by a subtree, in left-to-right
order: leaf ranges contribute `[start, stop)`, internal nodes contribute
their pivot index between the two children. -/
def nodeIndices : NodeOrDataPointer → List Nat
  | NodeOrDataPointer.data se => List.range' se.1 (se.2 - se.1)
  | NodeOrDataPointer.node dp l r => nodeIndices l ++ dp :: nodeIndices r

/-- Every leaf range `[start, stop)` of the subtree is non-empty. -/
def leavesNonemptyB : NodeOrDataPointer → Bool
  | NodeOrDataPointer.data se => decide (se.1 < se.2)
  | NodeOrDataPointer.node _ l r => leavesNonemptyB l && leavesNonemptyB r

/-! ## Support lemmas -/

theorem range'_mid (s a b : Nat) :
    List.range' s a ++ (s + a) :: List.range' (s + a + 1) b = List.range' s (a + b + 1) := by
  have h1 : (s + a) :: List.range' (s + a + 1) b = List.range' (s + a) (b + 1) := by
    rw [List.range'_succ]
  rw [h1, List.range'_append_1]
  congr 1
  omega

theorem mem_insertM (c : α → α → Option Ordering) (x : α) :
    ∀ (l l2 : List α), insertM c x l = some l2 → ∀ z ∈ l2, z = x ∨ z ∈ l := by
  intro l
  induction l with
  | nil =>
    intro l2 h z hz
    unfold insertM at h
    cases Option.some.inj h
    simp at hz
    exact Or.inl hz
  | cons y ys ih =>
    intro l2 h z hz
    unfold insertM at h
    match hc : c x y with
    | none => rw [hc] at h; exact absurd h (by simp)
    | some Ordering.gt =>
      rw [hc] at h
      match ht : insertM c x ys with
      | none => rw [ht] at h; exact absurd h (by simp)
      | some t =>
        rw [ht] at h
        cases Option.some.inj h
        rcases List.mem_cons.mp hz with hz1 | hz1
        · exact Or.inr (by simp [hz1])
        · rcases ih t ht z hz1 with h1 | h1
          · exact Or.inl h1
          · exact Or.inr (by simp [h1])
    | some Ordering.lt =>
      rw [hc] at h
      cases Option.some.inj h
      rcases List.mem_cons.mp hz with hz1 | hz1
      · exact Or.inl hz1
      · exact Or.inr hz1
    | some Ordering.eq =>
      rw [hc] at h
      cases Option.some.inj h
      rcases List.mem_cons.mp hz with hz1 | hz1
      · exact Or.inl hz1
      · exact Or.inr hz1

theorem mem_sortM (c : α → α → Option Ordering) :
    ∀ (l l2 : List α), sortM c l = some l2 → ∀ z ∈ l2, z ∈ l := by
  intro l
  induction l with
  | nil =>
    intro l2 h z hz
    unfold sortM at h
    cases Option.some.inj h
    simp at hz
  | cons x xs ih =>
    intro l2 h z hz
    unfold sortM at h
    match hs : sortM c xs with
    | none => rw [hs] at h; exact absurd h (by simp)
    | some s =>
      rw [hs] at h
      rcases mem_insertM c x s l2 h z hz with h1 | h1
      · simp [h1]
      · exact List.mem_cons_of_mem x (ih s hs z h1)

theorem insertM_isSome (c : α → α → Option Ordering) (x : α) :
    ∀ (l : List α), (∀ y ∈ l, (c x y).isSome = true) → (insertM c x l).isSome = true := by
  intro l
  induction l with
  | nil => intro _; simp [insertM]
  | cons y ys ih =>
    intro hcm
    have hy : (c x y).isSome = true := hcm y (by simp)
    obtain ⟨o, ho⟩ := Option.isSome_iff_exists.mp hy
    unfold insertM
    rw [ho]
    match o with
    | Ordering.gt =>
      have ht := ih (fun z hz => hcm z (by simp [hz]))
      obtain ⟨t, htt⟩ := Option.isSome_iff_exists.mp ht
      rw [htt]
      simp
    | Ordering.lt => simp
    | Ordering.eq => simp

theorem sortM_isSome (c : α → α → Option Ordering) :
    ∀ (l : List α), (∀ a ∈ l, ∀ b ∈ l, (c a b).isSome = true) →
      (sortM c l).isSome = true := by
  intro l
  induction l with
  | nil => intro _; simp [sortM]
  | cons x xs ih =>
    intro hcm
    have hxs := ih (fun a ha b hb => hcm a (by simp [ha]) b (by simp [hb]))
    obtain ⟨s, hs⟩ := Option.isSome_iff_exists.mp hxs
    unfold sortM
    rw [hs]
    exact insertM_isSome c x s (fun y hy =>
      hcm x (by simp) y (List.mem_cons_of_mem x (mem_sortM c xs s hs y hy)))

theorem get?_isSome_of_lt {l : List α} {n : Nat} (h : n < l.length) :
    (l.get? n).isSome = true := by
  cases hg : l.get? n
  · exact absurd (List.get?_eq_none.mp hg) (by omega)
  · rfl

theorem cmpAxis_isSome {T : Type} (axis : Nat) (a b : Data T)
    (ha : axis < a.point.length) (hb : axis < b.point.length) :
    (cmpAxis axis a b).isSome = true := by
  unfold cmpAxis
  obtain ⟨x, hx⟩ := Option.isSome_iff_exists.mp (get?_isSome_of_lt ha)
  obtain ⟨y, hy⟩ := Option.isSome_iff_exists.mp (get?_isSome_of_lt hb)
  rw [hx, hy]
  rfl

theorem build_tree_go_indices {T : Type} :
    ∀ (fuel : Nat) (data : List (Data T)) (loc depth pl mp : Nat)
      (t : NodeOrDataPointer) (d2 : List (Data T)),
      build_tree_go fuel data loc depth pl mp = some (t, d2) →
      nodeIndices t = List.range' loc data.length ∧
        (0 < data.length → leavesNonemptyB t = true) := by
  intro fuel
  induction fuel with
  | zero =>
    intro data loc depth pl mp t d2 h
    unfold build_tree_go at h
    split at h
    · cases Option.some.inj h
      constructor
      · simp [nodeIndices]
      · intro hpos
        simp [leavesNonemptyB]
        omega
    · exact absurd h (by simp)
  | succ fuel ih =>
    intro data loc depth pl mp t d2 h
    unfold build_tree_go at h
    split at h
    · cases Option.some.inj h
      constructor
      · simp [nodeIndices]
      · intro hpos
        simp [leavesNonemptyB]
        omega
    · rename_i hcond
      split at h
      · exact absurd h (by simp)
      · rename_i hpl
        split at h
        · exact absurd h (by simp)
        · rename_i sorted hs
          split at h
          · exact absurd h (by simp)
          · rename_i pivot rest hm
            split at h
            · exact absurd h (by simp)
            · rename_i lpair hL
              split at h
              · exact absurd h (by simp)
              · rename_i rpair hR
                cases Option.some.inj h
                have hsl := sortM_length _ data sorted hs
                have htake : (sorted.take (data.length / 2)).length = data.length / 2 := by
                  simp [List.length_take]
                  omega
                have hdl : (sorted.drop (data.length / 2)).length =
                    sorted.length - data.length / 2 := by simp
                rw [hm] at hdl
                simp at hdl
                have hrest : rest.length = data.length - data.length / 2 - 1 := by omega
                obtain ⟨hL1, hL2⟩ := ih _ _ _ _ _ _ _ hL
                obtain ⟨hR1, hR2⟩ := ih _ _ _ _ _ _ _ hR
                rw [htake] at hL1 hL2
                rw [hrest] at hR1 hR2
                constructor
                · show nodeIndices lpair.1 ++ (data.length / 2 + loc) :: nodeIndices rpair.1 =
                    List.range' loc data.length
                  rw [hL1, hR1]
                  have hdp : data.length / 2 + loc = loc + data.length / 2 := by omega
                  rw [hdp]
                  have := range'_mid loc (data.length / 2)
                    (data.length - data.length / 2 - 1)
                  rw [this]
                  congr 1
                  omega
                · intro hpos
                  show (leavesNonemptyB lpair.1 && leavesNonemptyB rpair.1) = true
                  rw [hL2 (by omega), hR2 (by omega)]
                  rfl

theorem build_tree_go_isSome {T : Type} :
    ∀ (fuel : Nat) (data : List (Data T)) (loc depth pl mp : Nat),
      data.length ≤ fuel → 0 < pl → (∀ d ∈ data, d.point.length = pl) →
      (build_tree_go fuel data loc depth pl mp).isSome = true := by
  intro fuel
  induction fuel with
  | zero =>
    intro data loc depth pl mp hfuel hpl hlen
    unfold build_tree_go
    rw [if_pos (Or.inr (by omega))]
    rfl
  | succ fuel ih =>
    intro data loc depth pl mp hfuel hpl hlen
    unfold build_tree_go
    by_cases hc : data.length < mp ∨ data.length < 3
    · rw [if_pos hc]
      rfl
    · rw [if_neg hc, if_neg (by omega : ¬pl = 0)]
      have hax : depth % pl < pl := Nat.mod_lt _ hpl
      have hsome := sortM_isSome (cmpAxis (depth % pl)) data (fun a ha b hb =>
        cmpAxis_isSome _ a b (by rw [hlen a ha]; exact hax) (by rw [hlen b hb]; exact hax))
      obtain ⟨sorted, hs⟩ := Option.isSome_iff_exists.mp hsome
      have hsl := sortM_length _ data sorted hs
      have hmem : ∀ d ∈ sorted, d.point.length = pl := fun d hd =>
        hlen d (mem_sortM _ data sorted hs d hd)
      match hm : sorted.drop (data.length / 2) with
      | [] =>
        have : (sorted.drop (data.length / 2)).length = 0 := by rw [hm]; rfl
        simp at this
        omega
      | pivot :: rest =>
        have hdl : (sorted.drop (data.length / 2)).length =
            sorted.length - data.length / 2 := by simp
        rw [hm] at hdl
        simp at hdl
        have hLs := ih (sorted.take (data.length / 2)) loc (depth + 1) pl mp
          (by simp [List.length_take]; omega) hpl
          (fun d hd => hmem d (List.take_subset _ _ hd))
        obtain ⟨lpair, hL⟩ := Option.isSome_iff_exists.mp hLs
        have hRs := ih rest (loc + data.length / 2 + 1) (depth + 1) pl mp
          (by omega)
          hpl
          (fun d hd => hmem d (List.mem_of_mem_drop (n := data.length / 2)
            (by rw [hm]; exact List.mem_cons_of_mem pivot hd)))
        obtain ⟨rpair, hR⟩ := Option.isSome_iff_exists.mp hRs
        simp only [hs, hm, hL, hR]
        rfl

theorem build_tree_go_root_shape {T : Type} :
    ∀ (fuel : Nat) (data : List (Data T)) (loc depth pl mp : Nat)
      (t : NodeOrDataPointer) (d2 : List (Data T)),
      build_tree_go fuel data loc depth pl mp = some (t, d2) →
      ((data.length < mp ∨ data.length < 3) →
        t = NodeOrDataPointer.data (loc, loc + data.length)) ∧
      (¬(data.length < mp ∨ data.length < 3) →
        ∃ dp l r, t = NodeOrDataPointer.node dp l r) := by
  intro fuel data loc depth pl mp t d2 h
  match fuel with
  | 0 =>
    unfold build_tree_go at h
    split at h
    · rename_i hc
      cases Option.some.inj h
      exact ⟨fun _ => rfl, fun hn => absurd hc hn⟩
    · exact absurd h (by simp)
  | fuel + 1 =>
    unfold build_tree_go at h
    split at h
    · rename_i hc
      cases Option.some.inj h
      exact ⟨fun _ => rfl, fun hn => absurd hc hn⟩
    · rename_i hc
      split at h
      · exact absurd h (by simp)
      · split at h
        · exact absurd h (by simp)
        · split at h
          · exact absurd h (by simp)
          · split at h
            · exact absurd h (by simp)
            · split at h
              · exact absurd h (by simp)
              · cases Option.some.inj h
                exact ⟨fun hcc => absurd hcc hc, fun _ => ⟨_, _, _, rfl⟩⟩

/-! ## Concrete fixtures used by the per-claim theorems -/

/-- One-dimensional record with payload `i` at coordinate `q`. -/
def mkD (i : Nat) (q : ℚ) : Data Nat :=
  ⟨i, [F32.val q]⟩

/-- Seven 1-D records at coordinates 0..6, payload = index. -/
def data7 : List (Data Nat) :=
  [mkD 0 0, mkD 1 1, mkD 2 2, mkD 3 3, mkD 4 4, mkD 5 5, mkD 6 6]

/-- Three 1-D records at coordinates 0,1,2, payload = index. -/
def data3 : List (Data Nat) :=
  [mkD 0 0, mkD 1 1, mkD 2 2]

/-- The tree `from_vec data3 1` builds: pivot index 1, two singleton leaves. -/
def tree3 : KDTree Nat :=
  ⟨NodeOrDataPointer.node 1 (NodeOrDataPointer.data (0, 1)) (NodeOrDataPointer.data (2, 3)),
    data3, 1⟩

/-- A single 2-D record, payload 0 at the origin. -/
def data1 : List (Data Nat) :=
  [⟨0, [F32.val 0, F32.val 0]⟩]

/-! ## Claim theorems -/

/-- C1: the claim states that for every built tree, query point and `k`,
`get_nearest_neighbors` returns as many distances as `min(k, n)`, matching
a brute-force sort.  The code violates it: on the 7-record 1-D tree over
coordinates 0..6 (`min_points = 1`), querying at coordinate 3 with `k = 7`
returns only 3 neighbors (sorted distances 0, 1, 1) instead of all 7
(0, 1, 1, 4, 4, 9, 9): the traversal drops the depth-1 pivots because the
heap is non-empty, and then prunes both far leaves although the heap is far
below capacity. -/
theorem c1_full_query_loses_neighbors :
    (runQuery data7 1 [F32.val 3] 7).map List.length = some 3 ∧
      data7.length = 7 := by
  constructor
  · decide
  · rfl

/-- C2: the claim states the public result is sorted ascending by distance.
The code returns `BinaryHeap::into_iter` order, which is the heap's
internal vector order with the worst candidate first: on a 3-record leaf
tree (`min_points = 30`), querying at coordinate 2 with `k = 2` returns
distances `[1, 0]` — strictly descending, not ascending. -/
theorem c2_result_in_heap_order_not_ascending :
    (runQuery data3 30 [F32.val 2] 2).map (fun l => l.map Neighbor.distance) =
      some [F32.val 1, F32.val 0] := by
  decide

/-- C3: the claim states the pivot is inserted unconditionally whenever the
heap holds fewer than `k` entries.  The code's internal-node insertion
(src/tree.rs lines 230-240) only pushes into a non-empty heap when the
distance is strictly below the current worst: with `k = 7` and a 1-entry
heap holding distance 0, a pivot at distance 4 is dropped entirely (this
state arises at the depth-1 node when querying `data7` at coordinate 3). -/
theorem c3_pivot_dropped_below_capacity :
    insertPivot 7 [⟨F32.val 0, 3⟩] ⟨F32.val 4, 1⟩ = [⟨F32.val 0, 3⟩] ∧
      ([⟨F32.val 0, 3⟩] : List RawNeighbor).length < 7 := by
  decide

/-- C4: the claim states `k = 0` returns an empty sequence for every built
tree.  When the root is an internal node the code pushes the root pivot
into the empty heap before consulting `k`, and the heap never empties
again: on the 3-record tree with an internal root (`min_points = 1`),
querying at coordinate 0 with `k = 0` returns one neighbor. -/
theorem c4_k_zero_returns_one_neighbor :
    (runQuery data3 1 [F32.val 0] 0).map List.length = some 1 := by
  decide

/-- C5: the claim states the far child is always descended while the heap
holds fewer than `k` entries.  The code's guard (src/tree.rs lines 250-254)
compares `diff^2` against the current worst whenever the heap is non-empty,
without checking fullness: with a 2-entry heap (worst distance 1, `k = 7`)
and `diff^2 = 4`, the far child is not descended (this state arises at the
depth-1 node when querying `data7` at coordinate 3 with `k = 7`). -/
theorem c5_far_child_pruned_below_capacity :
    descendAway [⟨F32.val 1, 2⟩, ⟨F32.val 0, 3⟩] (F32.val 4) = false ∧
      ([⟨F32.val 1, 2⟩, ⟨F32.val 0, 3⟩] : List RawNeighbor).length < 7 := by
  decide

/-- C6 counterexample: construction from zero records does not surface any
error value: `from_vec` indexes `data[0]` before building, which panics on
an empty vector (`none` in the model); no `Ok` and no `Err` is produced
(and the error enum has no `EmptyInput` variant at all). -/
theorem c6_empty_input_counterexample :
    from_vec (T := Nat) [] 5 = none :=
  rfl

/-- C6 amended: construction (`from_vec` and `from_iter`) given zero
records panics on the out-of-bounds read `data[0]` instead of returning an
`EmptyInput` error (no such variant exists); no tree is produced. -/
theorem c6_empty_input_amended :
    ∀ (T : Type) (mp : Nat), from_vec (T := T) [] mp = none ∧
      from_iter (T := T) [] mp = none :=
  fun _ _ => ⟨rfl, rfl⟩

/-- C7 counterexample: querying a 2-dimensional tree with a 1-dimensional
point does not fail: `get_nearest_neighbors` has no error path, and the
call returns a result (the claim states it fails with `DimensionMismatch`
rather than returning a result). -/
theorem c7_dimension_mismatch_counterexample :
    (runQuery data1 1 [F32.val 3] 1).isSome = true := by
  decide

/-- C7 amended: querying with a point whose dimension differs from the
tree's is not detected: no error value exists for it at query time; with
the squared-Euclidean metric the coordinate `zip` silently truncates, so
the 2-D one-record tree queried with the 1-D point `[3]` returns its record
at squared distance 9 (a panic can occur only when traversal of an internal
node indexes a split axis beyond the query point's length). -/
theorem c7_dimension_mismatch_amended :
    runQuery data1 1 [F32.val 3] 1 = some [⟨F32.val 9, 0⟩] := by
  decide

/-- C8 counterexample: the build comparator orders a non-NaN value before a
NaN on the right-hand side: `partial_cmp(0, NaN).unwrap_or(Less)` is `Less`,
so 0 sorts before NaN — the claim's "NaN compares as less than every other
value on whichever side it appears" would require `Greater` here. -/
theorem c8_nan_right_counterexample :
    pcmpUnwrapLess (F32.val 0) F32.nan = Ordering.lt :=
  rfl

/-- C8 amended: the comparator returns `Less` whenever either side is NaN
(`partial_cmp` is `None` and `unwrap_or(Less)` applies), so a NaN on the
left sorts before the other value but a NaN on the right sorts after it;
and construction never fails on NaN coordinates: for any non-empty record
list of uniform positive dimension — NaN entries included — `from_vec`
succeeds. -/
theorem c8_nan_comparator_amended :
    (∀ x : F32, pcmpUnwrapLess F32.nan x = Ordering.lt ∧
      pcmpUnwrapLess x F32.nan = Ordering.lt) ∧
    (∀ (d0 : Data Nat) (rest : List (Data Nat)) (mp : Nat),
      0 < d0.point.length →
      (∀ d ∈ d0 :: rest, d.point.length = d0.point.length) →
      (from_vec (d0 :: rest) mp).isSome = true) := by
  constructor
  · intro x
    cases x
    · exact ⟨rfl, rfl⟩
    · exact ⟨rfl, rfl⟩
  · intro d0 rest mp h0 hlen
    have hb := build_tree_go_isSome (d0 :: rest).length (d0 :: rest) 0 0
      d0.point.length mp (Nat.le_refl _) h0 hlen
    obtain ⟨pair, hp⟩ := Option.isSome_iff_exists.mp hb
    unfold from_vec build_tree
    simp only [hp]
    rfl

/-- C8 witness: construction succeeds on a concrete 3-record input whose
first coordinate is NaN. -/
theorem c8_nan_comparator_amended_witness :
    (from_vec [(⟨0, [F32.nan]⟩ : Data Nat), ⟨1, [F32.val 0]⟩, ⟨2, [F32.val 1]⟩] 1).isSome
      = true :=
  c8_nan_comparator_amended.2 ⟨0, [F32.nan]⟩ [⟨1, [F32.val 0]⟩, ⟨2, [F32.val 1]⟩] 1
    (by decide) (by decide)

/-- C9: for every input accepted by `from_vec`, the indices referenced by
the produced tree — all leaf ranges plus all internal pivot slots — are
exactly `0, ..., n-1`, each exactly once (the reference list is literally
`range' 0 n`), and every leaf range is non-empty. -/
theorem c9_partition_cover :
    ∀ (T : Type) (data : List (Data T)) (mp : Nat) (t : KDTree T),
      from_vec data mp = some (Except.ok t) →
      nodeIndices t.root_node = List.range' 0 data.length ∧
        leavesNonemptyB t.root_node = true := by
  intro T data mp t h
  match data with
  | [] => exact absurd h (by simp [from_vec])
  | d0 :: rest =>
    simp only [from_vec] at h
    split at h
    · exact absurd h (by simp)
    · rename_i pair hp
      cases Except.ok.inj (Option.some.inj h)
      unfold build_tree at hp
      obtain ⟨h1, h2⟩ := build_tree_go_indices (d0 :: rest).length (d0 :: rest)
        0 0 d0.point.length mp pair.1 pair.2 hp
      exact ⟨h1, h2 (by simp)⟩

/-- C9 witness: the 3-record tree built with threshold 1 covers exactly
the indices 0, 1, 2, with non-empty leaves. -/
theorem c9_partition_cover_witness :
    from_vec data3 1 = some (Except.ok tree3) ∧
      nodeIndices tree3.root_node = List.range' 0 data3.length ∧
        leavesNonemptyB tree3.root_node = true :=
  ⟨rfl, c9_partition_cover Nat data3 1 tree3 rfl⟩

/-- C10: `from_vec` never rejects its input (for non-empty input it returns
`Ok` whenever construction does not panic, in particular always when the
root is a leaf), and `get_root_node` returns `Err(RootNodeIsData)` exactly
when `n < 3` or `n < min_points`, i.e. exactly when the root is a leaf;
otherwise it returns the root's node. -/
theorem c10_leaf_root_accepted :
    ∀ (T : Type) (d0 : Data T) (rest : List (Data T)) (mp : Nat),
      (((d0 :: rest).length < 3 ∨ (d0 :: rest).length < mp) →
        ∃ t, from_vec (d0 :: rest) mp = some (Except.ok t) ∧
          get_root_node t = Except.error ClosestError.RootNodeIsData) ∧
      (∀ t : KDTree T, from_vec (d0 :: rest) mp = some (Except.ok t) →
        (get_root_node t = Except.error ClosestError.RootNodeIsData ↔
          ((d0 :: rest).length < 3 ∨ (d0 :: rest).length < mp))) := by
  intro T d0 rest mp
  constructor
  · intro hc
    have hb : build_tree (d0 :: rest) 0 0 d0.point.length mp =
        some (NodeOrDataPointer.data (0, 0 + (d0 :: rest).length), d0 :: rest) := by
      unfold build_tree
      show build_tree_go (rest.length + 1) (d0 :: rest) 0 0 d0.point.length mp = _
      unfold build_tree_go
      rw [if_pos (Or.symm hc)]
    refine ⟨⟨NodeOrDataPointer.data (0, 0 + (d0 :: rest).length), d0 :: rest,
      d0.point.length⟩, ?_, rfl⟩
    simp only [from_vec, hb]
  · intro t ht
    simp only [from_vec] at ht
    split at ht
    · exact absurd ht (by simp)
    · rename_i pair hp
      cases Except.ok.inj (Option.some.inj ht)
      unfold build_tree at hp
      obtain ⟨hleaf, hnode⟩ := build_tree_go_root_shape (d0 :: rest).length (d0 :: rest)
        0 0 d0.point.length mp pair.1 pair.2 hp
      constructor
      · intro herr
        by_contra hcc
        obtain ⟨dp, l, r, hshape⟩ := hnode (fun hx => hcc (Or.symm hx))
        simp only [get_root_node, hshape] at herr
        exact absurd herr (by simp)
      · intro hc
        have hld := hleaf (Or.symm hc)
        simp only [get_root_node, hld]

/-- C10 witness: a single-record input with threshold 30 builds a leaf-root
tree that `from_vec` accepts and whose `get_root_node` is the
`RootNodeIsData` error. -/
theorem c10_leaf_root_accepted_witness :
    ∃ t : KDTree Nat, from_vec [(⟨0, [F32.val 0, F32.val 0]⟩ : Data Nat)] 30 =
        some (Except.ok t) ∧
      get_root_node t = Except.error ClosestError.RootNodeIsData :=
  (c10_leaf_root_accepted Nat ⟨0, [F32.val 0, F32.val 0]⟩ [] 30).1 (by decide)
